import Mathlib

/-! Shallow embedding of `format_converter.py` (OSM PBF → nodes.csv / edges.csv
graph extraction): Python-string primitives, the maxspeed parser and speed
estimator, and the `GraphWriter` streaming state machine.
-/

/-- Python whitespace characters recognised by `str.strip()` (ASCII fragment). -/
def isPyWS (c : Char) : Bool :=
  c = ' ' || c = '\t' || c = '\n' || c = '\r' || c = '\x0b' || c = '\x0c'

/-- Python `str.strip()`: drop leading and trailing whitespace. -/
def pyStrip (s : String) : String :=
  ⟨((s.data.dropWhile isPyWS).reverse.dropWhile isPyWS).reverse⟩

/-- ASCII lowering of one character (the fragment of `str.lower()` the inputs use). -/
def pyToLowerChar (c : Char) : Char :=
  if 'A' ≤ c ∧ c ≤ 'Z' then Char.ofNat (c.toNat + 32) else c

/-- Python `str.lower()` (ASCII fragment). -/
def pyLower (s : String) : String := ⟨s.data.map pyToLowerChar⟩

/-- Does `p` start the list `s`? -/
def startsWithList : List Char → List Char → Bool
  | [], _ => true
  | _ :: _, [] => false
  | p :: ps, c :: cs => p = c && startsWithList ps cs

/-- Python `str.endswith(suf)`. -/
def pyEndsWith (s suf : String) : Bool :=
  startsWithList suf.data.reverse s.data.reverse

/-- Replace every non-overlapping occurrence of `pat` (left to right), with a
fuel argument for structural recursion; fuel `s.length` suffices since every
step consumes at least one character. -/
def replaceFuel (pat rep : List Char) : Nat → List Char → List Char
  | 0, s => s
  | _ + 1, [] => []
  | fuel + 1, c :: cs =>
    if pat ≠ [] ∧ startsWithList pat (c :: cs) then
      rep ++ replaceFuel pat rep fuel ((c :: cs).drop pat.length)
    else
      c :: replaceFuel pat rep fuel cs

/-- Python `str.replace(pat, rep)`: replaces all occurrences. -/
def pyReplace (s pat rep : String) : String :=
  ⟨replaceFuel pat.data rep.data s.data.length s.data⟩

/-- Digit list to natural number. -/
def digitsToNat (ds : List Char) : Nat :=
  ds.foldl (fun a c => a * 10 + (c.toNat - 48)) 0

/-- Unsigned finite-decimal literal: `digits`, `digits.`, `digits.digits`, `.digits`. -/
def parseUnsignedDecimal (cs : List Char) : Option ℚ :=
  let intDigits := cs.takeWhile Char.isDigit
  let rest := cs.dropWhile Char.isDigit
  match rest with
  | [] => if intDigits.isEmpty then none else some (digitsToNat intDigits : ℚ)
  | '.' :: rest2 =>
    let fracDigits := rest2.takeWhile Char.isDigit
    let rest3 := rest2.dropWhile Char.isDigit
    if rest3.isEmpty ∧ (¬ intDigits.isEmpty ∨ ¬ fracDigits.isEmpty) then
      some ((digitsToNat intDigits : ℚ)
        + (digitsToNat fracDigits : ℚ) / ((10 : ℚ) ^ fracDigits.length))
    else none
  | _ => none

/-- Python `float(s)` on the finite decimal fragment (optional surrounding
whitespace, optional sign, decimal digits with optional point). The
`inf`/`nan`/exponent/underscore forms of CPython are outside the fragment the
converter's call sites exercise and are treated as parse failures. -/
def pyFloat (s : String) : Option ℚ :=
  match (pyStrip s).data with
  | '+' :: cs => parseUnsignedDecimal cs
  | '-' :: cs => (parseUnsignedDecimal cs).map (fun q => -q)
  | cs => parseUnsignedDecimal cs

/-! Speed configuration and estimator (`format_converter.py` lines 9-81) -/

/-- Table `DEFAULT_SPEED_KMH`: default speeds (km/h) by OSM highway type. -/
def DEFAULT_SPEED_KMH : List (String × ℚ) :=
  [("motorway", 110), ("motorway_link", 70), ("trunk", 90), ("trunk_link", 70),
   ("primary", 70), ("primary_link", 60), ("secondary", 60), ("secondary_link", 50),
   ("tertiary", 50), ("tertiary_link", 40), ("unclassified", 40), ("residential", 30),
   ("living_street", 10), ("service", 20), ("cycleway", 20), ("path", 10)]

/-- Constant `DEFAULT_FALLBACK_KMH`: used when no tag-based speed is available. -/
def DEFAULT_FALLBACK_KMH : ℚ := 50

/-- Python dict membership/indexing `DEFAULT_SPEED_KMH[highway]` as one lookup. -/
def lookupKmh (hw : String) : Option ℚ :=
  (DEFAULT_SPEED_KMH.find? (fun p => p.1 == hw)).map (fun p => p.2)

/-- Tag dictionaries: string keys to string values, unique keys. -/
def Tags := List (String × String)

/-- Python `tags.get(k)`: the stored value, or `None` when the key is absent. -/
def getTag (tags : Tags) (k : String) : Option String :=
  (tags.find? (fun p => p.1 == k)).map (fun p => p.2)

/-- Function `_parse_maxspeed` (lines 40-64): parse the OSM maxspeed tag into m/s,
`none` if unknown.  The `Option String` input models the Python argument being
`None` (tag absent) or a string; `if not value` is falsy for both `None` and
`""`.  Division by `18/5` is the source's `/ 3.6`; `44704/100000` is `0.44704`. -/
def parse_maxspeed (value : Option String) : Option ℚ :=
  match value with
  | none => none
  | some v =>
    if v = "" then none
    else
      let txt := pyLower (pyStrip v)
      if txt = "none" then none
      else if pyEndsWith txt "mph" then
        (pyFloat (pyStrip (pyReplace txt "mph" ""))).map (fun mph => mph * (44704 / 100000))
      else
        let txt2 := pyReplace (pyReplace (pyReplace txt "km/h" "") "kph" "") "kmh" ""
        (pyFloat (pyStrip txt2)).map (fun kmh => kmh / (18 / 5))

/-- Lines 75-81 of `estimate_speed_mps`: highway-based default, else fallback.
`tags.get('highway') in DEFAULT_SPEED_KMH` is the `Option.bind` being `some`
(`None in dict` is false in Python). -/
def speedFromHighway (tags : Tags) : ℚ :=
  match (getTag tags "highway").bind lookupKmh with
  | some kmh => kmh / (18 / 5)
  | none => DEFAULT_FALLBACK_KMH / (18 / 5)

/-- Function `estimate_speed_mps` (lines 67-81): maxspeed tag if it parses to a truthy
(nonzero) float, else highway default, else fallback.  Python `if speed:` is
false for `None` and `0.0`, hence the `s ≠ 0` guard. -/
def estimate_speed_mps (tags : Tags) : ℚ :=
  match parse_maxspeed (getTag tags "maxspeed") with
  | some s => if s ≠ 0 then s else speedFromHighway tags
  | none => speedFromHighway tags

/-! GraphWriter state machine (`format_converter.py` lines 83-152)

Node coordinates live in the decoder's location cache (`locations=True`), so a
node reference's latitude/longitude is a function of its OSM id: `loc : Nat →
Option Coord`, with `none` meaning that accessing `.lat`/`.lon` raises
`osmium.InvalidLocationError`.  The haversine distance (lines 30-37) is a pure
function of the two coordinate pairs; the claims under verification never
depend on its numeric value, so the embedding abstracts it as a `dist`
parameter.  CSV rows are modelled as the tuples of values written (`:.7f` /
`:.2f` formatting is presentation only and is not modelled). -/

/-- A cached node location (degrees). -/
structure Coord where
  lat : ℚ
  lon : ℚ
deriving DecidableEq, Repr

/-- The `GraphWriter` handler state: the OSM-id → dense-index dict (Python
dicts preserve insertion order, hence an association list), the counter, and
the rows written so far to `nodes.csv` and `edges.csv`. -/
structure GraphWriter where
  id_map : List (Nat × Nat)
  next_index : Nat
  nodes_out : List (Nat × Coord)
  edges_out : List (Nat × Nat × ℚ)
deriving DecidableEq, Repr

/-- The state constructed in `__init__` (lines 84-91), output rows empty. -/
def initialWriter : GraphWriter := ⟨[], 0, [], []⟩

/-- Python `osm_id in self.id_map` / `self.id_map[osm_id]` as one lookup. -/
def idLookup (m : List (Nat × Nat)) (osm_id : Nat) : Option Nat :=
  (m.find? (fun p => p.1 == osm_id)).map (fun p => p.2)

/-- Method `get_or_create_node` (lines 93-109).  A fresh id is stored in the map and
the counter incremented *before* the row write; formatting the row reads
`osm_node_ref.lat`, which raises `InvalidLocationError` (the `.error` result)
when the location cache has no entry — after the map/counter mutation, before
any row is written.  On success the dense index is returned (`.ok`). -/
def get_or_create_node (loc : Nat → Option Coord) (st : GraphWriter) (osm_id : Nat) :
    GraphWriter × Except Unit Nat :=
  match idLookup st.id_map osm_id with
  | some idx => (st, .ok idx)
  | none =>
    let idx := st.next_index
    let st1 : GraphWriter :=
      { st with id_map := st.id_map ++ [(osm_id, idx)], next_index := st.next_index + 1 }
    match loc osm_id with
    | some c => ({ st1 with nodes_out := st1.nodes_out ++ [(idx, c)] }, .ok idx)
    | none => (st1, .error ())

/-- The weight expression of line 128: `dist / speed if speed else dist /
(50/3.6)` — travel time in seconds (the `else` arm is unreachable because
`estimate_speed_mps` never returns zero, but it is embedded as written). -/
def segmentWeight (d : ℚ) (tags : Tags) : ℚ :=
  if estimate_speed_mps tags ≠ 0 then d / estimate_speed_mps tags
  else d / (50 / (18 / 5))

/-- One iteration of the segment loop (lines 116-139), i.e. the `try` body for
the pair `(startRef, endRef)` with the surrounding `except
osmium.InvalidLocationError: continue`.  Reading a coordinate of a node whose
location is absent raises: in `get_or_create_node` for a fresh id, or at line
126 (`haversine(start_node.lon, ...)`) for an already-mapped id.  A raise
aborts the iteration keeping the state mutated so far; otherwise the forward
edge is written, and the reverse edge too unless `oneway == "yes"`. -/
def processSegment (loc : Nat → Option Coord) (dist : Coord → Coord → ℚ)
    (tags : Tags) (st : GraphWriter) (startRef endRef : Nat) : GraphWriter :=
  match get_or_create_node loc st startRef with
  | (st1, .error _) => st1
  | (st1, .ok u) =>
    match get_or_create_node loc st1 endRef with
    | (st2, .error _) => st2
    | (st2, .ok v) =>
      match loc startRef, loc endRef with
      | some cs, some ce =>
        let weight := segmentWeight (dist cs ce) tags
        let st3 : GraphWriter := { st2 with edges_out := st2.edges_out ++ [(u, v, weight)] }
        if getTag tags "oneway" ≠ some "yes" then
          { st3 with edges_out := st3.edges_out ++ [(v, u, weight)] }
        else st3
      | _, _ => st2

/-- The consecutive pairs `(w.nodes[i], w.nodes[i+1])` of line 116's loop. -/
def consecutivePairs : List Nat → List (Nat × Nat)
  | a :: b :: rest => (a, b) :: consecutivePairs (b :: rest)
  | _ => []

/-- A way as the handler sees it: ordered node references (ids) and tags. -/
structure Way where
  nodes : List Nat
  tags : Tags

/-- The `way` handler (lines 111-139): skip unless a `highway` tag is present,
then run the segment loop over all consecutive node pairs. -/
def way (loc : Nat → Option Coord) (dist : Coord → Coord → ℚ)
    (st : GraphWriter) (w : Way) : GraphWriter :=
  if getTag w.tags "highway" = none then st
  else (consecutivePairs w.nodes).foldl
    (fun s p => processSegment loc dist w.tags s p.1 p.2) st

/-- The driver pass (lines 141-152): one `GraphWriter` over the whole way
stream (non-way entities never reach the `way` handler; header lines are not
rows of the modelled tables). -/
def processWays (loc : Nat → Option Coord) (dist : Coord → Coord → ℚ)
    (ws : List Way) : GraphWriter :=
  ws.foldl (way loc dist) initialWriter

/-- A bare sequence of `get_or_create_node` calls, for stating allocator-only
properties (the result value of each call is discarded, as the state carries
everything observable). -/
def runAlloc (loc : Nat → Option Coord) (st : GraphWriter) (ids : List Nat) : GraphWriter :=
  ids.foldl (fun s osm_id => (get_or_create_node loc s osm_id).1) st

/-- Distinct identifiers of a sequence in first-seen order, appended to an
accumulator of already-seen identifiers. -/
def firstSeen (acc : List Nat) : List Nat → List Nat
  | [] => acc
  | osm_id :: ids => firstSeen (if osm_id ∈ acc then acc else acc ++ [osm_id]) ids

/-- The `nodes.csv` rows a call sequence appends: one row per fresh identifier
whose location is available, indexed by the running counter `n`. -/
def allocRows (loc : Nat → Option Coord) (ks : List Nat) (n : Nat) :
    List Nat → List (Nat × Coord)
  | [] => []
  | osm_id :: ids =>
    if osm_id ∈ ks then allocRows loc ks n ids
    else
      match loc osm_id with
      | some c => (n, c) :: allocRows loc (ks ++ [osm_id]) (n + 1) ids
      | none => allocRows loc (ks ++ [osm_id]) (n + 1) ids

/-! Lookup lemmas -/

theorem idLookup_cons (p : Nat × Nat) (m : List (Nat × Nat)) (osm_id : Nat) :
    idLookup (p :: m) osm_id = if p.1 = osm_id then some p.2 else idLookup m osm_id := by
  by_cases h : p.1 = osm_id
  · simp [idLookup, List.find?_cons_of_pos, h]
  · simp [idLookup, List.find?_cons_of_neg, h]

theorem idLookup_eq_none_iff (m : List (Nat × Nat)) (osm_id : Nat) :
    idLookup m osm_id = none ↔ osm_id ∉ m.map Prod.fst := by
  induction m with
  | nil => simp [idLookup]
  | cons p m ih =>
    rw [idLookup_cons]
    by_cases h : p.1 = osm_id
    · simp [h]
    · rw [if_neg h, ih, List.map_cons]
      constructor
      · intro hnm hmem
        rcases List.mem_cons.mp hmem with he | hm
        · exact h he.symm
        · exact hnm hm
      · intro hnm hm
        exact hnm (List.mem_cons_of_mem _ hm)

theorem idLookup_append_left {m : List (Nat × Nat)} {osm_id i : Nat}
    (l : List (Nat × Nat)) (h : idLookup m osm_id = some i) :
    idLookup (m ++ l) osm_id = some i := by
  induction m with
  | nil => simp [idLookup] at h
  | cons p m ih =>
    rw [idLookup_cons] at h
    rw [List.cons_append, idLookup_cons]
    by_cases hp : p.1 = osm_id
    · simpa [hp] using h
    · rw [if_neg hp] at h ⊢; exact ih h

theorem idLookup_append_fresh {m : List (Nat × Nat)} {osm_id : Nat}
    (i : Nat) (h : idLookup m osm_id = none) :
    idLookup (m ++ [(osm_id, i)]) osm_id = some i := by
  induction m with
  | nil => simp [idLookup]
  | cons p m ih =>
    rw [idLookup_cons] at h
    rw [List.cons_append, idLookup_cons]
    by_cases hp : p.1 = osm_id
    · simp [hp] at h
    · rw [if_neg hp] at h ⊢; exact ih h

theorem idLookup_append_elim {m : List (Nat × Nat)} {osm_id n j i : Nat}
    (h : idLookup (m ++ [(osm_id, n)]) j = some i) :
    idLookup m j = some i ∨ (j = osm_id ∧ i = n) := by
  induction m with
  | nil =>
    rw [List.nil_append, idLookup_cons] at h
    by_cases hp : osm_id = j
    · rw [if_pos hp] at h
      exact Or.inr ⟨hp.symm, (Option.some.injEq _ _ ▸ h).symm⟩
    · rw [if_neg hp] at h; simp [idLookup] at h
  | cons p m ih =>
    rw [List.cons_append, idLookup_cons] at h
    rw [idLookup_cons]
    by_cases hp : p.1 = j
    · rw [if_pos hp] at h ⊢; exact Or.inl h
    · rw [if_neg hp] at h ⊢; exact ih h

/-! Case analysis of `get_or_create_node` -/

theorem goc_found {st : GraphWriter} {osm_id i : Nat} (loc : Nat → Option Coord)
    (h : idLookup st.id_map osm_id = some i) :
    get_or_create_node loc st osm_id = (st, .ok i) := by
  unfold get_or_create_node; rw [h]

theorem goc_fresh_some {loc : Nat → Option Coord} {st : GraphWriter} {osm_id : Nat} {c : Coord}
    (hL : idLookup st.id_map osm_id = none) (hc : loc osm_id = some c) :
    get_or_create_node loc st osm_id =
      ({ st with id_map := st.id_map ++ [(osm_id, st.next_index)],
                 next_index := st.next_index + 1,
                 nodes_out := st.nodes_out ++ [(st.next_index, c)] }, .ok st.next_index) := by
  unfold get_or_create_node; rw [hL]; simp [hc]

theorem goc_fresh_none {loc : Nat → Option Coord} {st : GraphWriter} {osm_id : Nat}
    (hL : idLookup st.id_map osm_id = none) (hc : loc osm_id = none) :
    get_or_create_node loc st osm_id =
      ({ st with id_map := st.id_map ++ [(osm_id, st.next_index)],
                 next_index := st.next_index + 1 }, .error ()) := by
  unfold get_or_create_node; rw [hL]; simp [hc]

theorem goc_cases (loc : Nat → Option Coord) (st : GraphWriter) (osm_id : Nat) :
    (∃ i, idLookup st.id_map osm_id = some i ∧
      get_or_create_node loc st osm_id = (st, .ok i))
  ∨ (idLookup st.id_map osm_id = none ∧ ∃ c, loc osm_id = some c ∧
      get_or_create_node loc st osm_id =
        ({ st with id_map := st.id_map ++ [(osm_id, st.next_index)],
                   next_index := st.next_index + 1,
                   nodes_out := st.nodes_out ++ [(st.next_index, c)] }, .ok st.next_index))
  ∨ (idLookup st.id_map osm_id = none ∧ loc osm_id = none ∧
      get_or_create_node loc st osm_id =
        ({ st with id_map := st.id_map ++ [(osm_id, st.next_index)],
                   next_index := st.next_index + 1 }, .error ())) := by
  cases hL : idLookup st.id_map osm_id with
  | some i => exact Or.inl ⟨i, rfl, goc_found loc hL⟩
  | none =>
    cases hc : loc osm_id with
    | some c => exact Or.inr (Or.inl ⟨rfl, c, rfl, goc_fresh_some hL hc⟩)
    | none => exact Or.inr (Or.inr ⟨rfl, rfl, goc_fresh_none hL hc⟩)

theorem goc_edges_out (loc : Nat → Option Coord) (st : GraphWriter) (osm_id : Nat) :
    ((get_or_create_node loc st osm_id).1).edges_out = st.edges_out := by
  rcases goc_cases loc st osm_id with ⟨i, _, h⟩ | ⟨_, c, _, h⟩ | ⟨_, _, h⟩ <;> rw [h]

theorem goc_nodes_mono {loc : Nat → Option Coord} {st : GraphWriter} {osm_id : Nat}
    {r : Nat × Coord} (h : r ∈ st.nodes_out) :
    r ∈ ((get_or_create_node loc st osm_id).1).nodes_out := by
  rcases goc_cases loc st osm_id with ⟨i, _, hg⟩ | ⟨_, c, _, hg⟩ | ⟨_, _, hg⟩ <;> rw [hg] <;>
    first
      | exact h
      | exact List.mem_append_left _ h

theorem goc_lookup_mono (loc : Nat → Option Coord) (osm_id : Nat) {st : GraphWriter} {j i : Nat}
    (h : idLookup st.id_map j = some i) :
    idLookup ((get_or_create_node loc st osm_id).1).id_map j = some i := by
  rcases goc_cases loc st osm_id with ⟨k, _, hg⟩ | ⟨_, c, _, hg⟩ | ⟨_, _, hg⟩ <;> rw [hg] <;>
    first
      | exact h
      | exact idLookup_append_left _ h

theorem goc_ok_lookup {loc : Nat → Option Coord} {st : GraphWriter} {osm_id i : Nat}
    (h : (get_or_create_node loc st osm_id).2 = .ok i) :
    idLookup ((get_or_create_node loc st osm_id).1).id_map osm_id = some i := by
  rcases goc_cases loc st osm_id with ⟨k, hL, hg⟩ | ⟨hL, c, _, hg⟩ | ⟨hL, _, hg⟩ <;>
    rw [hg] <;> rw [hg] at h <;> simp at h
  · rw [← h]; exact hL
  · rw [← h]; exact idLookup_append_fresh _ hL

theorem goc_ok_of_loc {loc : Nat → Option Coord} (st : GraphWriter) {osm_id : Nat}
    {c : Coord} (hc : loc osm_id = some c) :
    ∃ st' i, get_or_create_node loc st osm_id = (st', .ok i) ∧
      st'.edges_out = st.edges_out := by
  rcases goc_cases loc st osm_id with ⟨i, _, hg⟩ | ⟨_, c', _, hg⟩ | ⟨_, hnone, _⟩
  · exact ⟨st, i, hg, rfl⟩
  · exact ⟨_, _, hg, rfl⟩
  · rw [hc] at hnone; cases hnone

/-! Invariants of the writer state -/

/-- Dense-index invariant: the dict values are exactly `0, 1, …, len-1` in
insertion order, and the counter equals the dict size. -/
def mapInv (st : GraphWriter) : Prop :=
  st.id_map.map Prod.snd = List.range st.id_map.length ∧
  st.next_index = st.id_map.length

/-- Node-output invariant: the `nodes.csv` rows are exactly one row `(index,
coord)` per dict entry whose identifier has a cached location. -/
def nodesInv (loc : Nat → Option Coord) (st : GraphWriter) : Prop :=
  st.nodes_out = st.id_map.filterMap (fun p => (loc p.1).map (fun c => (p.2, c)))

/-- Edge-output invariant: every emitted edge references indices that have a
row in the node output, and every mapped identifier with a cached location has
its row in the node output. -/
def edgesInv (loc : Nat → Option Coord) (st : GraphWriter) : Prop :=
  (∀ e ∈ st.edges_out,
     (∃ c, (e.1, c) ∈ st.nodes_out) ∧ (∃ c, (e.2.1, c) ∈ st.nodes_out)) ∧
  (∀ osm_id i, idLookup st.id_map osm_id = some i →
     ∀ c, loc osm_id = some c → (i, c) ∈ st.nodes_out)

theorem initial_mapInv : mapInv initialWriter := by
  constructor <;> rfl

theorem initial_nodesInv (loc : Nat → Option Coord) : nodesInv loc initialWriter := rfl

theorem initial_edgesInv (loc : Nat → Option Coord) : edgesInv loc initialWriter := by
  constructor
  · intro e he; cases he
  · intro osm_id i h; simp [initialWriter, idLookup] at h

theorem goc_mapInv (loc : Nat → Option Coord) {st : GraphWriter} (osm_id : Nat)
    (h : mapInv st) : mapInv ((get_or_create_node loc st osm_id).1) := by
  obtain ⟨hv, hn⟩ := h
  rcases goc_cases loc st osm_id with ⟨i, _, hg⟩ | ⟨_, c, _, hg⟩ | ⟨_, _, hg⟩ <;> rw [hg]
  · exact ⟨hv, hn⟩
  all_goals
    refine ⟨?_, ?_⟩ <;>
      simp [List.map_append, hv, hn, List.range_succ]

theorem goc_nodesInv (loc : Nat → Option Coord) {st : GraphWriter} (osm_id : Nat)
    (h : nodesInv loc st) : nodesInv loc ((get_or_create_node loc st osm_id).1) := by
  unfold nodesInv at h ⊢
  rcases goc_cases loc st osm_id with ⟨i, _, hg⟩ | ⟨_, c, hc, hg⟩ | ⟨_, hc, hg⟩ <;> rw [hg]
  · exact h
  · simp [List.filterMap_append, h, hc]
  · simp [List.filterMap_append, h, hc]

theorem goc_edgesInv (loc : Nat → Option Coord) {st : GraphWriter} (osm_id : Nat)
    (h : edgesInv loc st) : edgesInv loc ((get_or_create_node loc st osm_id).1) := by
  obtain ⟨he, hm⟩ := h
  rcases goc_cases loc st osm_id with ⟨i, _, hg⟩ | ⟨hL, c, hc, hg⟩ | ⟨hL, hc, hg⟩ <;> rw [hg]
  · exact ⟨he, hm⟩
  · constructor
    · intro e hein
      obtain ⟨⟨c1, h1⟩, ⟨c2, h2⟩⟩ := he e hein
      exact ⟨⟨c1, List.mem_append_left _ h1⟩, ⟨c2, List.mem_append_left _ h2⟩⟩
    · intro j i hj c' hc'
      rcases idLookup_append_elim hj with hold | ⟨rfl, rfl⟩
      · exact List.mem_append_left _ (hm j i hold c' hc')
      · rw [hc] at hc'
        cases hc'
        exact List.mem_append_right _ (List.mem_cons_self _ _)
  · constructor
    · intro e hein
      exact he e hein
    · intro j i hj c' hc'
      rcases idLookup_append_elim hj with hold | ⟨rfl, rfl⟩
      · exact hm j i hold c' hc'
      · rw [hc] at hc'; cases hc'

/-! Lemmas about one segment iteration -/

theorem mapInv_set_edges {st : GraphWriter} (es : List (Nat × Nat × ℚ))
    (h : mapInv st) : mapInv { st with edges_out := es } := h

theorem nodesInv_set_edges {loc : Nat → Option Coord} {st : GraphWriter}
    (es : List (Nat × Nat × ℚ)) (h : nodesInv loc st) :
    nodesInv loc { st with edges_out := es } := h

theorem processSegment_edges_ok (loc : Nat → Option Coord) (dist : Coord → Coord → ℚ)
    (tags : Tags) (st : GraphWriter) (a b : Nat) (ca cb : Coord)
    (ha : loc a = some ca) (hb : loc b = some cb) :
    ∃ u v, (processSegment loc dist tags st a b).edges_out
      = st.edges_out ++
        (if getTag tags "oneway" ≠ some "yes" then
          [(u, v, segmentWeight (dist ca cb) tags), (v, u, segmentWeight (dist ca cb) tags)]
         else [(u, v, segmentWeight (dist ca cb) tags)]) := by
  obtain ⟨st1, u, h1, e1⟩ := goc_ok_of_loc st ha
  obtain ⟨st2, v, h2, e2⟩ := goc_ok_of_loc st1 hb
  refine ⟨u, v, ?_⟩
  unfold processSegment
  simp only [h1, h2, ha, hb]
  by_cases ho : getTag tags "oneway" = some "yes"
  · rw [if_neg (not_not_intro ho), if_neg (not_not_intro ho)]
    simp [e1, e2]
  · rw [if_pos ho, if_pos ho]
    simp [e1, e2]

theorem processSegment_edges_skip (loc : Nat → Option Coord) (dist : Coord → Coord → ℚ)
    (tags : Tags) (st : GraphWriter) (a b : Nat)
    (h : loc a = none ∨ loc b = none) :
    (processSegment loc dist tags st a b).edges_out = st.edges_out := by
  rcases hga : get_or_create_node loc st a with ⟨st1, ru⟩
  have e1 : st1.edges_out = st.edges_out := by
    have := goc_edges_out loc st a; rw [hga] at this; exact this
  cases ru with
  | error err => unfold processSegment; simp only [hga]; exact e1
  | ok u =>
    rcases hgb : get_or_create_node loc st1 b with ⟨st2, rv⟩
    have e2 : st2.edges_out = st1.edges_out := by
      have := goc_edges_out loc st1 b; rw [hgb] at this; exact this
    cases rv with
    | error err => unfold processSegment; simp only [hga, hgb]; exact e2.trans e1
    | ok v =>
      unfold processSegment
      simp only [hga, hgb]
      rcases h with h | h
      · rw [h]
        cases hlb : loc b <;> simp [e2, e1]
      · rw [h]
        cases hla : loc a <;> simp [e2, e1]

theorem processSegment_mapInv (loc : Nat → Option Coord) (dist : Coord → Coord → ℚ)
    (tags : Tags) (st : GraphWriter) (a b : Nat) (h : mapInv st) :
    mapInv (processSegment loc dist tags st a b) := by
  rcases hga : get_or_create_node loc st a with ⟨st1, ru⟩
  have h1 : mapInv st1 := by
    have := goc_mapInv loc a h; rw [hga] at this; exact this
  cases ru with
  | error err => unfold processSegment; simp only [hga]; exact h1
  | ok u =>
    rcases hgb : get_or_create_node loc st1 b with ⟨st2, rv⟩
    have h2 : mapInv st2 := by
      have := goc_mapInv loc b h1; rw [hgb] at this; exact this
    cases rv with
    | error err => unfold processSegment; simp only [hga, hgb]; exact h2
    | ok v =>
      cases hla : loc a with
      | none =>
        cases hlb : loc b <;>
          · unfold processSegment; simp only [hga, hgb, hla]; exact h2
      | some ca =>
        cases hlb : loc b with
        | none => unfold processSegment; simp only [hga, hgb, hla, hlb]; exact h2
        | some cb =>
          unfold processSegment
          simp only [hga, hgb, hla, hlb]
          by_cases ho : getTag tags "oneway" ≠ some "yes"
          · rw [if_pos ho]; exact mapInv_set_edges _ h2
          · rw [if_neg ho]; exact mapInv_set_edges _ h2

theorem processSegment_nodesInv (loc : Nat → Option Coord) (dist : Coord → Coord → ℚ)
    (tags : Tags) (st : GraphWriter) (a b : Nat) (h : nodesInv loc st) :
    nodesInv loc (processSegment loc dist tags st a b) := by
  rcases hga : get_or_create_node loc st a with ⟨st1, ru⟩
  have h1 : nodesInv loc st1 := by
    have := goc_nodesInv loc a h; rw [hga] at this; exact this
  cases ru with
  | error err => unfold processSegment; simp only [hga]; exact h1
  | ok u =>
    rcases hgb : get_or_create_node loc st1 b with ⟨st2, rv⟩
    have h2 : nodesInv loc st2 := by
      have := goc_nodesInv loc b h1; rw [hgb] at this; exact this
    cases rv with
    | error err => unfold processSegment; simp only [hga, hgb]; exact h2
    | ok v =>
      cases hla : loc a with
      | none =>
        cases hlb : loc b <;>
          · unfold processSegment; simp only [hga, hgb, hla]; exact h2
      | some ca =>
        cases hlb : loc b with
        | none => unfold processSegment; simp only [hga, hgb, hla, hlb]; exact h2
        | some cb =>
          unfold processSegment
          simp only [hga, hgb, hla, hlb]
          by_cases ho : getTag tags "oneway" ≠ some "yes"
          · rw [if_pos ho]; exact nodesInv_set_edges _ h2
          · rw [if_neg ho]; exact nodesInv_set_edges _ h2

theorem edgesInv_append_edges {loc : Nat → Option Coord} {st : GraphWriter}
    (u v : Nat) (w : ℚ) (ca cb : Coord)
    (h : edgesInv loc st) (hu : (u, ca) ∈ st.nodes_out) (hv : (v, cb) ∈ st.nodes_out)
    (es : List (Nat × Nat × ℚ))
    (hes : es = [(u, v, w)] ∨ es = [(u, v, w), (v, u, w)]) :
    edgesInv loc { st with edges_out := st.edges_out ++ es } := by
  constructor
  · intro e he
    rcases List.mem_append.mp he with hold | hnew
    · exact h.1 e hold
    · rcases hes with rfl | rfl
      · rcases List.mem_singleton.mp hnew with rfl
        exact ⟨⟨ca, hu⟩, ⟨cb, hv⟩⟩
      · rcases List.mem_cons.mp hnew with rfl | hrest
        · exact ⟨⟨ca, hu⟩, ⟨cb, hv⟩⟩
        · rcases List.mem_singleton.mp hrest with rfl
          exact ⟨⟨cb, hv⟩, ⟨ca, hu⟩⟩
  · intro j i hj c hc
    exact h.2 j i hj c hc

theorem processSegment_edgesInv (loc : Nat → Option Coord) (dist : Coord → Coord → ℚ)
    (tags : Tags) (st : GraphWriter) (a b : Nat) (h : edgesInv loc st) :
    edgesInv loc (processSegment loc dist tags st a b) := by
  rcases hga : get_or_create_node loc st a with ⟨st1, ru⟩
  have h1 : edgesInv loc st1 := by
    have := goc_edgesInv loc a h; rw [hga] at this; exact this
  cases ru with
  | error err => unfold processSegment; simp only [hga]; exact h1
  | ok u =>
    rcases hgb : get_or_create_node loc st1 b with ⟨st2, rv⟩
    have h2 : edgesInv loc st2 := by
      have := goc_edgesInv loc b h1; rw [hgb] at this; exact this
    cases rv with
    | error err => unfold processSegment; simp only [hga, hgb]; exact h2
    | ok v =>
      have hu1 : idLookup st1.id_map a = some u := by
        have hg2 : (get_or_create_node loc st a).2 = .ok u := by rw [hga]
        have := goc_ok_lookup hg2; rw [hga] at this; exact this
      have hu2 : idLookup st2.id_map a = some u := by
        have := goc_lookup_mono loc b hu1
        rw [hgb] at this; exact this
      have hv2 : idLookup st2.id_map b = some v := by
        have hg2 : (get_or_create_node loc st1 b).2 = .ok v := by rw [hgb]
        have := goc_ok_lookup hg2; rw [hgb] at this; exact this
      cases hla : loc a with
      | none =>
        cases hlb : loc b <;>
          · unfold processSegment; simp only [hga, hgb, hla]; exact h2
      | some ca =>
        cases hlb : loc b with
        | none => unfold processSegment; simp only [hga, hgb, hla, hlb]; exact h2
        | some cb =>
          have hua : (u, ca) ∈ st2.nodes_out := h2.2 a u hu2 ca hla
          have hvb : (v, cb) ∈ st2.nodes_out := h2.2 b v hv2 cb hlb
          unfold processSegment
          simp only [hga, hgb, hla, hlb]
          by_cases ho : getTag tags "oneway" ≠ some "yes"
          · rw [if_pos ho, List.append_assoc]
            exact edgesInv_append_edges u v _ ca cb h2 hua hvb _ (Or.inr rfl)
          · rw [if_neg ho]
            exact edgesInv_append_edges u v _ ca cb h2 hua hvb _ (Or.inl rfl)

/-! Fold preservation up to the whole pass -/

theorem foldl_inv {σ α : Type _} (P : σ → Prop) (f : σ → α → σ)
    (hf : ∀ s x, P s → P (f s x)) :
    ∀ (l : List α) (s : σ), P s → P (l.foldl f s) := by
  intro l
  induction l with
  | nil => intro s h; exact h
  | cons x l ih => intro s h; exact ih _ (hf s x h)

theorem way_mapInv (loc : Nat → Option Coord) (dist : Coord → Coord → ℚ)
    (st : GraphWriter) (w : Way) (h : mapInv st) : mapInv (way loc dist st w) := by
  unfold way
  split
  · exact h
  · exact foldl_inv _ _ (fun s p hp => processSegment_mapInv loc dist w.tags s p.1 p.2 hp) _ _ h

theorem way_nodesInv (loc : Nat → Option Coord) (dist : Coord → Coord → ℚ)
    (st : GraphWriter) (w : Way) (h : nodesInv loc st) :
    nodesInv loc (way loc dist st w) := by
  unfold way
  split
  · exact h
  · exact foldl_inv _ _ (fun s p hp => processSegment_nodesInv loc dist w.tags s p.1 p.2 hp) _ _ h

theorem way_edgesInv (loc : Nat → Option Coord) (dist : Coord → Coord → ℚ)
    (st : GraphWriter) (w : Way) (h : edgesInv loc st) :
    edgesInv loc (way loc dist st w) := by
  unfold way
  split
  · exact h
  · exact foldl_inv _ _ (fun s p hp => processSegment_edgesInv loc dist w.tags s p.1 p.2 hp) _ _ h

theorem processWays_mapInv (loc : Nat → Option Coord) (dist : Coord → Coord → ℚ)
    (ws : List Way) : mapInv (processWays loc dist ws) :=
  foldl_inv _ _ (fun s w hp => way_mapInv loc dist s w hp) _ _ initial_mapInv

theorem processWays_nodesInv (loc : Nat → Option Coord) (dist : Coord → Coord → ℚ)
    (ws : List Way) : nodesInv loc (processWays loc dist ws) :=
  foldl_inv _ _ (fun s w hp => way_nodesInv loc dist s w hp) _ _ (initial_nodesInv loc)

theorem processWays_edgesInv (loc : Nat → Option Coord) (dist : Coord → Coord → ℚ)
    (ws : List Way) : edgesInv loc (processWays loc dist ws) :=
  foldl_inv _ _ (fun s w hp => way_edgesInv loc dist s w hp) _ _ (initial_edgesInv loc)

/-! Closed forms for a bare allocator run -/

theorem runAlloc_cons (loc : Nat → Option Coord) (st : GraphWriter)
    (osm_id : Nat) (ids : List Nat) :
    runAlloc loc st (osm_id :: ids)
      = runAlloc loc ((get_or_create_node loc st osm_id).1) ids := rfl

theorem mem_keys_of_idLookup {m : List (Nat × Nat)} {osm_id i : Nat}
    (h : idLookup m osm_id = some i) : osm_id ∈ m.map Prod.fst := by
  by_contra hn
  have := (idLookup_eq_none_iff m osm_id).mpr hn
  exact Option.noConfusion (this.symm.trans h)

theorem runAlloc_keys (loc : Nat → Option Coord) :
    ∀ (ids : List Nat) (st : GraphWriter),
      (runAlloc loc st ids).id_map.map Prod.fst
        = firstSeen (st.id_map.map Prod.fst) ids := by
  intro ids
  induction ids with
  | nil => intro st; rfl
  | cons osm_id ids ih =>
    intro st
    rw [runAlloc_cons, ih, firstSeen]
    congr 1
    rcases goc_cases loc st osm_id with ⟨i, hL, hg⟩ | ⟨hL, c, hc, hg⟩ | ⟨hL, hc, hg⟩ <;> rw [hg]
    · rw [if_pos (mem_keys_of_idLookup hL)]
    · rw [if_neg ((idLookup_eq_none_iff _ _).mp hL)]
      simp
    · rw [if_neg ((idLookup_eq_none_iff _ _).mp hL)]
      simp

theorem runAlloc_mapInv (loc : Nat → Option Coord) (ids : List Nat)
    (st : GraphWriter) (h : mapInv st) : mapInv (runAlloc loc st ids) :=
  foldl_inv _ _ (fun _ x hp => goc_mapInv loc x hp) _ _ h

theorem runAlloc_edges (loc : Nat → Option Coord) :
    ∀ (ids : List Nat) (st : GraphWriter),
      (runAlloc loc st ids).edges_out = st.edges_out := by
  intro ids
  induction ids with
  | nil => intro st; rfl
  | cons osm_id ids ih =>
    intro st
    rw [runAlloc_cons, ih, goc_edges_out]

theorem runAlloc_nodes (loc : Nat → Option Coord) :
    ∀ (ids : List Nat) (st : GraphWriter), mapInv st →
      (runAlloc loc st ids).nodes_out
        = st.nodes_out
          ++ allocRows loc (st.id_map.map Prod.fst) st.id_map.length ids := by
  intro ids
  induction ids with
  | nil => intro st _; simp [runAlloc, allocRows]
  | cons osm_id ids ih =>
    intro st h
    rw [runAlloc_cons, ih _ (goc_mapInv loc _ h), allocRows]
    rcases goc_cases loc st osm_id with ⟨i, hL, hg⟩ | ⟨hL, c, hc, hg⟩ | ⟨hL, hc, hg⟩ <;> rw [hg]
    · rw [if_pos (mem_keys_of_idLookup hL)]
    · rw [if_neg ((idLookup_eq_none_iff _ _).mp hL), hc]
      simp [h.2, List.map_append, List.append_assoc]
    · rw [if_neg ((idLookup_eq_none_iff _ _).mp hL), hc]
      simp [h.2, List.map_append]

/-! Positivity of the estimated speed -/

theorem lookupKmh_pos {hw : String} {kmh : ℚ} (h : lookupKmh hw = some kmh) :
    0 < kmh := by
  have hall : ∀ p ∈ DEFAULT_SPEED_KMH, (0 : ℚ) < p.2 := by decide
  unfold lookupKmh at h
  cases hf : DEFAULT_SPEED_KMH.find? (fun p => p.1 == hw) with
  | none => rw [hf] at h; cases h
  | some p =>
    rw [hf] at h
    have hp := hall p (List.mem_of_find?_eq_some hf)
    simp at h
    rw [← h]
    exact hp

theorem speedFromHighway_pos (tags : Tags) : 0 < speedFromHighway tags := by
  unfold speedFromHighway
  cases hb : (getTag tags "highway").bind lookupKmh with
  | none => norm_num [DEFAULT_FALLBACK_KMH]
  | some kmh =>
    have : ∃ hw, getTag tags "highway" = some hw ∧ lookupKmh hw = some kmh := by
      cases hh : getTag tags "highway" with
      | none => rw [hh] at hb; cases hb
      | some hw => rw [hh] at hb; exact ⟨hw, rfl, hb⟩
    obtain ⟨hw, _, hl⟩ := this
    have := lookupKmh_pos hl
    positivity

theorem estimate_speed_ne_zero (tags : Tags) : estimate_speed_mps tags ≠ 0 := by
  cases hp : parse_maxspeed (getTag tags "maxspeed") with
  | none =>
    unfold estimate_speed_mps
    simp only [hp]
    exact ne_of_gt (speedFromHighway_pos tags)
  | some s =>
    unfold estimate_speed_mps
    simp only [hp]
    by_cases hz : s ≠ 0
    · rw [if_pos hz]; exact hz
    · rw [if_neg hz]; exact ne_of_gt (speedFromHighway_pos tags)

/-! Concrete inputs used by witnesses and counterexamples -/

/-- A location cache with a coordinate for every id. -/
def locAll : Nat → Option Coord := fun _ => some ⟨0, 0⟩

/-- A location cache with no coordinate for any id. -/
def locNone : Nat → Option Coord := fun _ => none

/-- A location cache lacking only id 5. -/
def locPart : Nat → Option Coord := fun n => if n = 5 then none else some ⟨0, 0⟩

/-- A constant stand-in for the haversine distance. -/
def distConst : Coord → Coord → ℚ := fun _ _ => 100

/-- A routable way over ids 1, 2 whose highway class is not in the table. -/
def wayHwy : Way := ⟨[1, 2], [("highway", "x")]⟩

/-- A routable way over ids 5, 6 (id 5 has no location under `locPart`). -/
def wayX : Way := ⟨[5, 6], [("highway", "residential")]⟩

/-- A routable residential way over ids 1, 2. -/
def wayRes : Way := ⟨[1, 2], [("highway", "residential")]⟩

/-! Claim C1 -/

theorem length_filterMap_of_isSome {α β : Type _} (f : α → Option β) :
    ∀ l : List α, (∀ x ∈ l, (f x).isSome) → (l.filterMap f).length = l.length := by
  intro l
  induction l with
  | nil => intro _; rfl
  | cons a l ih =>
    intro h
    rw [List.filterMap_cons]
    cases hf : f a with
    | none =>
      have := h a (List.mem_cons_self a l)
      rw [hf] at this
      cases this
    | some b =>
      simp only [List.length_cons]
      rw [ih (fun x hx => h x (List.mem_cons_of_mem _ hx))]

/-- Claim C1, counterexample.  One routable way over ids 5, 6 where id 5 has
no cached location: id 5 is presented to the allocator, stored in the map and
counted (`next_index = 1`), but reading its latitude raises before the row
write, so zero node rows are emitted — the node output row count does not
equal the final count reported by the allocator. -/
theorem claim_C1_counterexample :
    (processWays locPart distConst [wayX]).next_index = 1
  ∧ (processWays locPart distConst [wayX]).nodes_out.length = 0 := by decide

/-- Claim C1, amended: exactly one node record is emitted per distinct
identifier whose location is available at its first allocation (the rows are
exactly the image of the identifier table under the location cache); the node
row count equals the final allocator count only under the additional
assumption that every allocated identifier has an available location. -/
theorem claim_C1 (loc : Nat → Option Coord) (dist : Coord → Coord → ℚ) (ws : List Way) :
    (processWays loc dist ws).nodes_out
      = (processWays loc dist ws).id_map.filterMap
          (fun p => (loc p.1).map (fun c => (p.2, c)))
  ∧ ((∀ p ∈ (processWays loc dist ws).id_map, (loc p.1).isSome) →
      (processWays loc dist ws).nodes_out.length
        = (processWays loc dist ws).next_index) := by
  have hn := processWays_nodesInv loc dist ws
  have hm := processWays_mapInv loc dist ws
  refine ⟨hn, fun hall => ?_⟩
  rw [hn, length_filterMap_of_isSome _ _ ?_, hm.2]
  intro p hp
  have hs := hall p hp
  cases hl : loc p.1 with
  | none => rw [hl] at hs; cases hs
  | some c => simp [hl]

/-- Claim C1, witness: a pass where every location is available, in which the
node row count does equal the reported count. -/
theorem claim_C1_witness :
    (processWays locAll distConst [wayRes]).nodes_out.length
      = (processWays locAll distConst [wayRes]).next_index :=
  (claim_C1 locAll distConst [wayRes]).2 (by decide)

/-! Claim C2 -/

/-- Claim C2: for every call sequence, the identifier table holds the
identifiers in first-seen order, its stored indices are exactly `0, …, k-1`
in that order (`k` the number of distinct identifiers), the counter equals
`k`, and a further call on an already-mapped identifier returns the stored
index and leaves the state unchanged. -/
theorem claim_C2 (loc : Nat → Option Coord) (ids : List Nat) :
    (runAlloc loc initialWriter ids).id_map.map Prod.fst = firstSeen [] ids
  ∧ (runAlloc loc initialWriter ids).id_map.map Prod.snd
      = List.range (firstSeen [] ids).length
  ∧ (runAlloc loc initialWriter ids).next_index = (firstSeen [] ids).length
  ∧ ∀ osm_id i, idLookup (runAlloc loc initialWriter ids).id_map osm_id = some i →
      get_or_create_node loc (runAlloc loc initialWriter ids) osm_id
        = (runAlloc loc initialWriter ids, .ok i) := by
  have hk : (runAlloc loc initialWriter ids).id_map.map Prod.fst = firstSeen [] ids := by
    have := runAlloc_keys loc ids initialWriter
    simpa [initialWriter] using this
  have hm := runAlloc_mapInv loc ids initialWriter initial_mapInv
  have hlen : (runAlloc loc initialWriter ids).id_map.length = (firstSeen [] ids).length := by
    rw [← hk, List.length_map]
  refine ⟨hk, ?_, ?_, ?_⟩
  · rw [hm.1, hlen]
  · rw [hm.2, hlen]
  · intro osm_id i h
    exact goc_found loc h

/-- Claim C2, witness: after presenting id 7 twice, a further call with id 7
returns index 0 and does not change the state. -/
theorem claim_C2_witness :
    get_or_create_node locAll (runAlloc locAll initialWriter [7, 7]) 7
      = (runAlloc locAll initialWriter [7, 7], .ok 0) :=
  (claim_C2 locAll [7, 7]).2.2.2 7 0 (by decide)

/-! Claim C3 -/

/-- Claim C3, counterexample.  The segment loop computes the weight of line
128 unconditionally — it takes no weighting-mode configuration — and on a
concrete pass (distance 100 m, estimated speed 50/3.6 m/s) the emitted weight
is the travel time 7.2 s, which differs from the distance: no configuration
of the core emits the distance as the weight. -/
theorem claim_C3_counterexample :
    (processWays locAll distConst [wayHwy]).edges_out
      = [(0, 1, 36 / 5), (1, 0, 36 / 5)]
  ∧ (36 / 5 : ℚ) ≠ (100 : ℚ) := by
  constructor
  · have hshape : (processWays locAll distConst [wayHwy]).edges_out
        = [(0, 1, segmentWeight (distConst ⟨0, 0⟩ ⟨0, 0⟩) wayHwy.tags),
           (1, 0, segmentWeight (distConst ⟨0, 0⟩ ⟨0, 0⟩) wayHwy.tags)] := rfl
    have hsp : estimate_speed_mps wayHwy.tags = (50 : ℚ) / (18 / 5) := rfl
    have hw : segmentWeight (distConst ⟨0, 0⟩ ⟨0, 0⟩) wayHwy.tags = 36 / 5 := by
      unfold segmentWeight
      rw [hsp, if_pos (by norm_num : ((50 : ℚ) / (18 / 5)) ≠ 0)]
      show (100 : ℚ) / ((50 : ℚ) / (18 / 5)) = 36 / 5
      norm_num
    rw [hshape, hw]
  · norm_num

/-- Claim C3, amended: the core has no weighting-scheme switch; every edge
record a processed segment emits carries the travel-time weight, distance
divided by the estimated speed (seconds).  A distance weighting mode does not
exist in the code. -/
theorem claim_C3 (loc : Nat → Option Coord) (dist : Coord → Coord → ℚ)
    (tags : Tags) (st : GraphWriter) (a b : Nat) (ca cb : Coord)
    (ha : loc a = some ca) (hb : loc b = some cb) :
    ∀ e ∈ (processSegment loc dist tags st a b).edges_out,
      e ∈ st.edges_out ∨ e.2.2 = dist ca cb / estimate_speed_mps tags := by
  obtain ⟨u, v, hE⟩ := processSegment_edges_ok loc dist tags st a b ca cb ha hb
  intro e he
  rw [hE] at he
  rcases List.mem_append.mp he with hold | hnew
  · exact Or.inl hold
  · right
    have hw : segmentWeight (dist ca cb) tags = dist ca cb / estimate_speed_mps tags := by
      unfold segmentWeight
      rw [if_pos (estimate_speed_ne_zero tags)]
    by_cases ho : getTag tags "oneway" ≠ some "yes"
    · rw [if_pos ho] at hnew
      rcases List.mem_cons.mp hnew with rfl | hrest
      · exact hw
      · rcases List.mem_singleton.mp hrest with rfl
        exact hw
    · rw [if_neg ho] at hnew
      rcases List.mem_singleton.mp hnew with rfl
      exact hw

/-- Claim C3, witness: the forward edge of a concrete processed segment
carries the travel-time weight. -/
theorem claim_C3_witness :
    ((0 : Nat), (1 : Nat), segmentWeight (distConst ⟨0, 0⟩ ⟨0, 0⟩) wayHwy.tags)
        ∈ initialWriter.edges_out
  ∨ ((0 : Nat), (1 : Nat), segmentWeight (distConst ⟨0, 0⟩ ⟨0, 0⟩) wayHwy.tags).2.2
      = distConst ⟨0, 0⟩ ⟨0, 0⟩ / estimate_speed_mps wayHwy.tags :=
  claim_C3 locAll distConst wayHwy.tags initialWriter 1 2 ⟨0, 0⟩ ⟨0, 0⟩ rfl rfl
    ((0 : Nat), (1 : Nat), segmentWeight (distConst ⟨0, 0⟩ ⟨0, 0⟩) wayHwy.tags)
    (by rw [show (processSegment locAll distConst wayHwy.tags initialWriter 1 2).edges_out
          = [((0 : Nat), (1 : Nat), segmentWeight (distConst ⟨0, 0⟩ ⟨0, 0⟩) wayHwy.tags),
             ((1 : Nat), (0 : Nat), segmentWeight (distConst ⟨0, 0⟩ ⟨0, 0⟩) wayHwy.tags)]
          from rfl]
        exact List.mem_cons_self _ _)

/-! Claim C4 -/

/-- Claim C4, counterexample: for the maxspeed value `"-30"` the estimator
returns the negative value `(-30)/3.6` — the parsed float is returned as long
as it is nonzero, with no sign (or finiteness, in the CPython original)
check. -/
theorem claim_C4_counterexample : estimate_speed_mps [("maxspeed", "-30")] < 0 := by
  have hp : parse_maxspeed (getTag [("maxspeed", "-30")] "maxspeed")
      = some ((-(30 : ℚ)) / (18 / 5)) := rfl
  unfold estimate_speed_mps
  simp only [hp]
  rw [if_pos (by norm_num : ((-(30 : ℚ)) / (18 / 5)) ≠ 0)]
  norm_num

/-- Claim C4, amended: the estimator never returns zero, and returns a
positive value for every tag mapping whose maxspeed value does not parse to a
negative number (a parsed zero falls through to the highway/fallback tiers,
which are always positive). -/
theorem claim_C4 (tags : Tags)
    (h : ∀ q, parse_maxspeed (getTag tags "maxspeed") = some q → 0 ≤ q) :
    0 < estimate_speed_mps tags := by
  cases hp : parse_maxspeed (getTag tags "maxspeed") with
  | none =>
    unfold estimate_speed_mps
    simp only [hp]
    exact speedFromHighway_pos tags
  | some s =>
    unfold estimate_speed_mps
    simp only [hp]
    by_cases hz : s ≠ 0
    · rw [if_pos hz]
      exact lt_of_le_of_ne (h s hp) (Ne.symm hz)
    · rw [if_neg hz]
      exact speedFromHighway_pos tags

/-- Claim C4, witness: a tag mapping whose maxspeed does not parse gets a
positive speed. -/
theorem claim_C4_witness : 0 < estimate_speed_mps [("maxspeed", "abc")] :=
  claim_C4 [("maxspeed", "abc")]
    (fun q hq => Option.noConfusion (show (none : Option ℚ) = some q from hq))

/-! Claim C5 -/

/-- Claim C5, counterexample.  The value `"30mphmph"` ends in `"mph"`; the
remaining text with only that suffix removed is `"30mph"`, which is
non-numeric (`pyFloat` fails on it), so by the claim parsing must fail — but
the code removes *every* occurrence of `"mph"` (Python `str.replace`), leaving
`"30"`, and parses successfully. -/
theorem claim_C5_counterexample :
    pyEndsWith (pyLower (pyStrip "30mphmph")) "mph" = true
  ∧ pyFloat "30mph" = none
  ∧ parse_maxspeed (some "30mphmph") ≠ none := by decide

/-- Claim C5, amended: for a maxspeed value (nonempty, not literally `none`)
whose trimmed lowercased form ends in `"mph"`, parsing removes every
occurrence of the substring `"mph"` (not only the trailing one), strips the
residue and parses it as a float multiplied by 0.44704; a non-numeric residue
makes parsing fail (fall through). -/
theorem claim_C5 (v : String) (h0 : v ≠ "")
    (h1 : pyLower (pyStrip v) ≠ "none")
    (h2 : pyEndsWith (pyLower (pyStrip v)) "mph" = true) :
    parse_maxspeed (some v)
      = (pyFloat (pyStrip (pyReplace (pyLower (pyStrip v)) "mph" ""))).map
          (fun mph => mph * (44704 / 100000)) := by
  simp only [parse_maxspeed, if_neg h0, if_neg h1, if_pos h2]

/-- Claim C5, witness: the value `"30 mph"` takes the mph branch. -/
theorem claim_C5_witness :
    parse_maxspeed (some "30 mph")
      = (pyFloat (pyStrip (pyReplace (pyLower (pyStrip "30 mph")) "mph" ""))).map
          (fun mph => mph * (44704 / 100000)) :=
  claim_C5 "30 mph" (by decide) (by decide) (by decide)

/-! Claim C6 -/

/-- Claim C6: a processed segment (both locations available) emits exactly one
edge record when the way's oneway tag is the literal `"yes"`, and exactly two
records — forward and reverse with identical weight — for every other oneway
value, including an absent tag. -/
theorem claim_C6 (loc : Nat → Option Coord) (dist : Coord → Coord → ℚ)
    (tags : Tags) (st : GraphWriter) (a b : Nat) (ca cb : Coord)
    (ha : loc a = some ca) (hb : loc b = some cb) :
    ∃ u v w,
      (getTag tags "oneway" = some "yes" →
        (processSegment loc dist tags st a b).edges_out = st.edges_out ++ [(u, v, w)])
    ∧ (getTag tags "oneway" ≠ some "yes" →
        (processSegment loc dist tags st a b).edges_out
          = st.edges_out ++ [(u, v, w), (v, u, w)]) := by
  obtain ⟨u, v, hE⟩ := processSegment_edges_ok loc dist tags st a b ca cb ha hb
  refine ⟨u, v, segmentWeight (dist ca cb) tags, ?_, ?_⟩
  · intro ho
    rw [hE, if_neg (not_not_intro ho)]
  · intro ho
    rw [hE, if_pos ho]

/-- Claim C6, witness: a oneway segment emits exactly one edge record. -/
theorem claim_C6_witness :
    ∃ u v w,
      (processSegment locAll distConst
          [("highway", "residential"), ("oneway", "yes")] initialWriter 1 2).edges_out
        = initialWriter.edges_out ++ [(u, v, w)] := by
  obtain ⟨u, v, w, h1, _⟩ := claim_C6 locAll distConst
    [("highway", "residential"), ("oneway", "yes")] initialWriter 1 2 ⟨0, 0⟩ ⟨0, 0⟩ rfl rfl
  exact ⟨u, v, w, h1 rfl⟩

/-! Claim C7 -/

/-- Claim C7: the estimator resolves in fixed order — a maxspeed parsing to a
truthy (nonzero) value wins, else a highway class in the table yields its
km/h value over 3.6, else the constant 50/3.6 — and the five concrete
evaluations of the spec hold (`"none"` resolving exactly as the empty
mapping). -/
theorem claim_C7 :
    (∀ tags s, parse_maxspeed (getTag tags "maxspeed") = some s → s ≠ 0 →
        estimate_speed_mps tags = s)
  ∧ (∀ tags, (parse_maxspeed (getTag tags "maxspeed") = none ∨
        parse_maxspeed (getTag tags "maxspeed") = some 0) →
        estimate_speed_mps tags = speedFromHighway tags)
  ∧ (∀ tags hw kmh, getTag tags "highway" = some hw → lookupKmh hw = some kmh →
        speedFromHighway tags = kmh / (18 / 5))
  ∧ (∀ tags, (getTag tags "highway").bind lookupKmh = none →
        speedFromHighway tags = 50 / (18 / 5))
  ∧ estimate_speed_mps [("maxspeed", "50")] = 50 / (18 / 5)
  ∧ estimate_speed_mps [("maxspeed", "30 mph")] = 30 * (44704 / 100000)
  ∧ estimate_speed_mps [("highway", "residential")] = 30 / (18 / 5)
  ∧ estimate_speed_mps [] = 50 / (18 / 5)
  ∧ estimate_speed_mps [("maxspeed", "none")] = estimate_speed_mps [] := by
  refine ⟨?_, ?_, ?_, ?_, ?_, ?_, rfl, rfl, rfl⟩
  · intro tags s hp hz
    unfold estimate_speed_mps
    simp only [hp]
    rw [if_pos hz]
  · intro tags hp
    rcases hp with hp | hp <;> (unfold estimate_speed_mps; simp only [hp])
    rw [if_neg (not_not_intro rfl)]
  · intro tags hw kmh hh hl
    unfold speedFromHighway
    rw [hh]
    simp only [Option.some_bind, hl]
  · intro tags hnone
    unfold speedFromHighway
    rw [hnone]
    rfl
  · have hp : parse_maxspeed (getTag [("maxspeed", "50")] "maxspeed")
        = some ((50 : ℚ) / (18 / 5)) := rfl
    unfold estimate_speed_mps
    simp only [hp]
    rw [if_pos (by norm_num : ((50 : ℚ) / (18 / 5)) ≠ 0)]
  · have hp : parse_maxspeed (getTag [("maxspeed", "30 mph")] "maxspeed")
        = some ((30 : ℚ) * (44704 / 100000)) := rfl
    unfold estimate_speed_mps
    simp only [hp]
    rw [if_pos (by norm_num : ((30 : ℚ) * (44704 / 100000)) ≠ 0)]

/-- Claim C7, witness: a non-parsing maxspeed falls through to the
highway/fallback tier. -/
theorem claim_C7_witness :
    estimate_speed_mps [("maxspeed", "abc"), ("highway", "residential")]
      = speedFromHighway [("maxspeed", "abc"), ("highway", "residential")] :=
  claim_C7.2.1 [("maxspeed", "abc"), ("highway", "residential")] (Or.inl (by decide))

/-! Claim C8 -/

/-- Claim C8: a segment either of whose node references lacks a location
emits no edge record (the state's edge output is unchanged by that
iteration), the segment loop of a routable way runs over all consecutive
pairs regardless, and the pass keeps folding over all subsequent ways — no
error escapes (every embedded transition is total). -/
theorem claim_C8 (loc : Nat → Option Coord) (dist : Coord → Coord → ℚ) :
    (∀ tags st a b, loc a = none ∨ loc b = none →
      (processSegment loc dist tags st a b).edges_out = st.edges_out)
  ∧ (∀ st w, getTag w.tags "highway" ≠ none →
      way loc dist st w = (consecutivePairs w.nodes).foldl
        (fun s p => processSegment loc dist w.tags s p.1 p.2) st)
  ∧ (∀ ws1 ws2, processWays loc dist (ws1 ++ ws2)
      = ws2.foldl (way loc dist) (processWays loc dist ws1)) := by
  refine ⟨?_, ?_, ?_⟩
  · intro tags st a b h
    exact processSegment_edges_skip loc dist tags st a b h
  · intro st w h
    unfold way
    rw [if_neg h]
  · intro ws1 ws2
    unfold processWays
    rw [List.foldl_append]

/-- Claim C8, witness: a segment with no locations available leaves the edge
output unchanged. -/
theorem claim_C8_witness :
    (processSegment locNone distConst [] initialWriter 1 2).edges_out
      = initialWriter.edges_out :=
  (claim_C8 locNone distConst).1 [] initialWriter 1 2 (Or.inl rfl)

/-! Claim C9 -/

/-- Claim C9: a way without a `highway` tag is skipped before any allocator
call or write — the handler returns the state unchanged (table, counter and
both output streams included). -/
theorem claim_C9 (loc : Nat → Option Coord) (dist : Coord → Coord → ℚ)
    (st : GraphWriter) (w : Way) (h : getTag w.tags "highway" = none) :
    way loc dist st w = st := by
  unfold way
  rw [if_pos h]

/-- Claim C9, witness: a concrete untagged way leaves the initial state
unchanged. -/
theorem claim_C9_witness :
    way locAll distConst initialWriter ⟨[1, 2], []⟩ = initialWriter :=
  claim_C9 locAll distConst initialWriter ⟨[1, 2], []⟩ rfl

/-! Claim C10 -/

/-- Claim C10: every edge record emitted during a pass references only
indices for which a node record is in the node output — an edge is only
written when both endpoint locations are readable, and a readable node's row
is written at its first allocation. -/
theorem claim_C10 (loc : Nat → Option Coord) (dist : Coord → Coord → ℚ)
    (ws : List Way) :
    ∀ e ∈ (processWays loc dist ws).edges_out,
      (∃ c, (e.1, c) ∈ (processWays loc dist ws).nodes_out)
    ∧ (∃ c, (e.2.1, c) ∈ (processWays loc dist ws).nodes_out) := by
  intro e he
  exact (processWays_edgesInv loc dist ws).1 e he

/-- Claim C10, witness: both endpoints of the first edge of a concrete pass
have node rows. -/
theorem claim_C10_witness :
    (∃ c, ((0 : Nat), c) ∈ (processWays locAll distConst [wayHwy]).nodes_out)
  ∧ (∃ c, ((1 : Nat), c) ∈ (processWays locAll distConst [wayHwy]).nodes_out) :=
  claim_C10 locAll distConst [wayHwy]
    (0, 1, segmentWeight (distConst ⟨0, 0⟩ ⟨0, 0⟩) wayHwy.tags)
    (by rw [show (processWays locAll distConst [wayHwy]).edges_out
          = [((0 : Nat), (1 : Nat), segmentWeight (distConst ⟨0, 0⟩ ⟨0, 0⟩) wayHwy.tags),
             ((1 : Nat), (0 : Nat), segmentWeight (distConst ⟨0, 0⟩ ⟨0, 0⟩) wayHwy.tags)]
          from rfl]
        exact List.mem_cons_self _ _)
